import Mathlib

/-!
Shallow embedding of the job-board alert scanner (src/main.py) and proofs
about its pipeline: keyword filtering, seen-set deduplication, the
commit-after-notification protocol, the source adapters and the notifier.

Conventions of the embedding:
* Python strings are Lean `String`; case folding (`str.lower`) is
  `Char.toLower` mapped over the characters (the titles and keywords in
  play are ASCII).
* The Python `set` inside `MockRedis` (and the Redis set it stands in
  for) is a `List String` holding each member once; `sadd` inserts only
  when absent, `sismember` is list membership.
* Network results are passed in as `Except String _` values: `.error`
  is an exception raised by the request/JSON-decoding step, which the
  adapters catch.
* `datetime.now().isoformat()` is an opaque `nowIso : String` parameter.
* The SMTP transport outcome is a `smtp_ok : Bool` parameter; the code
  catches the transport exception and turns it into `False`.
-/

namespace JobAlert

/-- The canonical job record produced by the adapters (TypedDict `Job`
in main.py, with `location` flattened to its single `name` field and
`company` already stamped by the adapter). -/
structure Job where
  title : String
  content : Option String
  locationName : String
  updated_at : String
  absolute_url : String
  company : String
deriving DecidableEq

/-- A raw Greenhouse job record before the adapter stamps the company
label (the fields of `Job` the API itself supplies). -/
structure RawGJob where
  title : String
  content : Option String
  locationName : String
  updated_at : String
  absolute_url : String
deriving DecidableEq

/-- `MockRedis.sismember` / `redis.sismember`: set membership. -/
def sismember (seen : List String) (value : String) : Bool :=
  seen.contains value

/-- `MockRedis.sadd` / `redis.sadd`: insert into the set (a no-op when
the value is already a member, as for a Python `set`). -/
def sadd (seen : List String) (value : String) : List String :=
  if seen.contains value then seen else seen ++ [value]

/-- `isStartOf needle hay`: `hay` begins with `needle`. -/
def isStartOf : List Char → List Char → Bool
  | [], _ => true
  | _ :: _, [] => false
  | n :: ns, h :: hs => n == h && isStartOf ns hs

/-- `occursIn needle hay`: Python's substring test `needle in hay`. -/
def occursIn (needle : List Char) : List Char → Bool
  | [] => needle.isEmpty
  | h :: hs => isStartOf needle (h :: hs) || occursIn needle hs

/-- Python `str.lower()` over the characters of a string. -/
def lowerData (s : String) : List Char :=
  s.data.map Char.toLower

/-- `JobScanner._check_title_keywords`: an empty keyword list matches
every title; otherwise some keyword must occur, case-insensitively, as
a substring of the title. -/
def check_title_keywords (title_keywords : List String) (job_title : String) : Bool :=
  if title_keywords.isEmpty then
    true
  else
    title_keywords.any (fun keyword => occursIn (lowerData keyword) (lowerData job_title))

/-- The nested department structure returned by the Greenhouse
`/departments` endpoint (TypedDict `Department`): a name, a list of raw
job records, and child departments, recursively. -/
inductive Department : Type where
  | node (name : String) (jobs : List RawGJob) (children : List Department)

def Department.jobs : Department → List RawGJob
  | .node _ js _ => js

def Department.children : Department → List Department
  | .node _ _ cs => cs

/-- `job_copy = dict(job); job_copy['company'] = config['company']`:
stamp a raw record with the source's organization label. -/
def stampJob (company : String) (r : RawGJob) : Job :=
  { title := r.title
    content := r.content
    locationName := r.locationName
    updated_at := r.updated_at
    absolute_url := r.absolute_url
    company := company }

/-- Concatenation of the lists produced for each element, written out
recursively to keep the adapter loops easy to unfold in proofs. -/
def flatMapL {α β : Type} (f : α → List β) : List α → List β
  | [] => []
  | x :: xs => f x ++ flatMapL f xs

/-- `JobScanner.fetch_greenhouse_jobs`: on a fetch/decode error the
exception is caught and the (still empty) accumulator is returned; on
success the loop collects the jobs of every top-level department and of
each department's immediate children, stamping each with the company
label.  (The loop does not recurse into grandchildren.) -/
def fetch_greenhouse_jobs (company : String)
    (result : Except String (List Department)) : List Job :=
  match result with
  | .error _ => []
  | .ok departments =>
      flatMapL (fun dept =>
        dept.jobs.map (stampJob company) ++
          flatMapL (fun child => child.jobs.map (stampJob company)) dept.children)
        departments

/-- One entry of the `teams` side table in the Ashby GraphQL response. -/
structure Team where
  id : String
  name : String
deriving DecidableEq

/-- One entry of `secondaryLocations` in a job posting. -/
structure SecondaryLocation where
  locationId : String
  locationName : String
deriving DecidableEq

/-- A raw job posting from the Ashby GraphQL response.  `Option`
fields model keys that may be absent from the JSON object (Python
`job.get(key, default)`). -/
structure JobPosting where
  id : String
  title : String
  teamId : Option String
  locationName : Option String
  employmentType : Option String
  secondaryLocations : List SecondaryLocation
  compensationTierSummary : Option String
deriving DecidableEq

/-- `teams = {team['id']: team['name'] for ...}` then
`teams.get(job.get('teamId'), '')`: resolve a team id through the side
table; a missing id (or a missing key) yields the empty string.  A
duplicated id keeps the last entry, as for a Python dict comprehension. -/
def lookupTeam (teams : List Team) (tid : Option String) : String :=
  match tid with
  | none => ""
  | some t =>
      match teams.reverse.find? (fun tm => tm.id == t) with
      | some tm => tm.name
      | none => ""

/-- The loop body of `JobScanner.fetch_openai_jobs`: normalize one raw
posting into the canonical `Job` shape. -/
def normalizePosting (company nowIso : String) (teams : List Team)
    (job : JobPosting) : Job :=
  let location_name := job.locationName.getD "Remote"
  let location_name :=
    if job.secondaryLocations.isEmpty then
      location_name
    else
      location_name ++ " + " ++ toString job.secondaryLocations.length ++ " other locations"
  let team_name := lookupTeam teams job.teamId
  let compensation := job.compensationTierSummary.getD "Not specified"
  { title := job.title
    content := some ("Team: " ++ team_name ++ "\nCompensation: " ++ compensation ++
      "\nEmployment Type: " ++ job.employmentType.getD "Not specified")
    locationName := location_name
    updated_at := nowIso
    absolute_url := "https://jobs.ashbyhq.com/openai/" ++ job.id
    company := company }

/-- `JobScanner.fetch_openai_jobs`: on a fetch/decode error the caught
exception leaves the accumulator empty; on success every posting is
normalized. -/
def fetch_openai_jobs (company nowIso : String)
    (result : Except String (List Team × List JobPosting)) : List Job :=
  match result with
  | .error _ => []
  | .ok r => r.2.map (normalizePosting company nowIso r.1)

/-- The raw data a configured source produced this cycle, tagged with
the adapter type the registry dispatches on (`config['type']`). -/
inductive SourceData : Type where
  | greenhouse (depts : Except String (List Department))
  | openai (resp : Except String (List Team × List JobPosting))
  | unknown

/-- One entry of `self.api_config`: organization label plus the data
its endpoint yields this cycle. -/
structure Source where
  company : String
  data : SourceData

/-- `JobScanner.fetch_jobs`: dispatch on the adapter type for every
configured source in registry order and concatenate the results; an
unknown type is logged and skipped. -/
def fetch_jobs (nowIso : String) (sources : List Source) : List Job :=
  flatMapL (fun s =>
    match s.data with
    | .greenhouse r => fetch_greenhouse_jobs s.company r
    | .openai r => fetch_openai_jobs s.company nowIso r
    | .unknown => []) sources

/-- The block of lines `send_email_alert` appends to the body for one
job: title, company, location name, apply URL, then a separator of 50
dashes.  (The job's `content` field is not rendered.) -/
def renderJob (job : Job) : String :=
  "Title: " ++ job.title ++ "\n" ++
    "Company: " ++ job.company ++ "\n" ++
    "Location: " ++ job.locationName ++ "\n" ++
    "Apply here: " ++ job.absolute_url ++ "\n" ++
    "\n" ++ String.mk (List.replicate 50 '-') ++ "\n\n"

/-- The digest body built by `send_email_alert`. -/
def emailBody (new_jobs : List Job) : String :=
  new_jobs.foldl (fun acc job => acc ++ renderJob job) "New job postings found:\n\n"

/-- `JobScanner.send_email_alert`, returning the rendered body together
with the delivery-success signal: in dry-run mode (`send_emails =
false`) the body is printed and the signal is `true`; in live mode the
signal is the SMTP outcome (a transport exception is caught and becomes
`false`). -/
def send_email_alert (send_emails smtp_ok : Bool) (new_jobs : List Job) :
    String × Bool :=
  if !send_emails then
    (emailBody new_jobs, true)
  else
    (emailBody new_jobs, smtp_ok)

/-- The filtering loop of `JobScanner.check_jobs`: keep a job when its
title passes the keyword check and its absolute URL is not yet in the
seen-set.  (The store is only read during this loop, so the loop is a
filter against the cycle's starting seen-set.) -/
def newJobs (keywords : List String) (seen : List String) (jobs : List Job) :
    List Job :=
  jobs.filter (fun job =>
    check_title_keywords keywords job.title && !(sismember seen job.absolute_url))

/-- The commit loop of `check_jobs`: `mark_job_seen` every job of the
batch in order. -/
def commitSeen (seen : List String) (batch : List Job) : List String :=
  batch.foldl (fun s job => sadd s job.absolute_url) seen

/-- `JobScanner.check_jobs` as a transformer of the seen-set: fetch is
already done (`jobs` is the combined sequence), filter, and commit the
batch only when `send_email_alert` signals success. -/
def check_jobs (send_emails smtp_ok : Bool) (keywords : List String)
    (jobs : List Job) (seen : List String) : List String :=
  let new_jobs := newJobs keywords seen jobs
  if new_jobs.isEmpty then
    seen
  else if (send_email_alert send_emails smtp_ok new_jobs).2 then
    commitSeen seen new_jobs
  else
    seen

/-- Run `check_jobs` over the same combined job sequence for `n`
consecutive cycles. -/
def iterateCycles (send_emails smtp_ok : Bool) (keywords : List String)
    (jobs : List Job) (seen : List String) : Nat → List String
  | 0 => seen
  | n + 1 =>
      iterateCycles send_emails smtp_ok keywords jobs
        (check_jobs send_emails smtp_ok keywords jobs seen) n

/-!  Instrumented cycle for the store-error analysis: the store's two
operations may raise (`store_fails = true` models an unavailable
store).  `check_jobs_try` is the body of the `try:` block of
`check_jobs` — it propagates a store exception — while `check_jobs_run`
is the whole function: its blanket `except Exception` handler catches
the exception, logs it, and returns normally.  With `store_fails` fixed
for the cycle, a raising store raises on its very first operation, so
no store mutation precedes the exception and the handler leaves the
starting seen-set in place. -/

/-- `JobScanner.is_job_seen` against a store that may be unavailable. -/
def is_job_seenE (store_fails : Bool) (seen : List String) (url : String) :
    Except String Bool :=
  if store_fails then .error ("store unavailable") else .ok (sismember seen url)

/-- `JobScanner.mark_job_seen` against a store that may be unavailable. -/
def mark_job_seenE (store_fails : Bool) (seen : List String) (url : String) :
    Except String (List String) :=
  if store_fails then .error ("store unavailable") else .ok (sadd seen url)

/-- The filtering loop of `check_jobs` with a store that may raise. -/
def selectNewE (store_fails : Bool) (keywords : List String) (seen : List String) :
    List Job → Except String (List Job)
  | [] => .ok []
  | job :: rest =>
      if check_title_keywords keywords job.title then
        match is_job_seenE store_fails seen job.absolute_url with
        | .error e => .error e
        | .ok true => selectNewE store_fails keywords seen rest
        | .ok false =>
            match selectNewE store_fails keywords seen rest with
            | .error e => .error e
            | .ok tail => .ok (job :: tail)
      else
        selectNewE store_fails keywords seen rest

/-- The commit loop of `check_jobs` with a store that may raise. -/
def commitSeenE (store_fails : Bool) : List String → List Job → Except String (List String)
  | seen, [] => .ok seen
  | seen, job :: rest =>
      match mark_job_seenE store_fails seen job.absolute_url with
      | .error e => .error e
      | .ok seen2 => commitSeenE store_fails seen2 rest

/-- The `try:` body of `check_jobs`: a store exception propagates. -/
def check_jobs_try (store_fails send_emails smtp_ok : Bool) (keywords : List String)
    (jobs : List Job) (seen : List String) : Except String (List String) :=
  match selectNewE store_fails keywords seen jobs with
  | .error e => .error e
  | .ok new_jobs =>
      if new_jobs.isEmpty then .ok seen
      else if (send_email_alert send_emails smtp_ok new_jobs).2 then
        commitSeenE store_fails seen new_jobs
      else
        .ok seen

/-- All of `check_jobs`: the `except Exception` handler around the body
catches every exception — a store error included — logs it, and falls
off the end of the function, so the operation returns normally. -/
def check_jobs_run (store_fails send_emails smtp_ok : Bool) (keywords : List String)
    (jobs : List Job) (seen : List String) : Except String (List String) :=
  match check_jobs_try store_fails send_emails smtp_ok keywords jobs seen with
  | .ok s => .ok s
  | .error _ => .ok seen

/-!  Reference flattenings of the department tree, for comparison with
the adapter's loop. -/

mutual
/-- Modelled from the spec: "Flattens all jobs from all departments and
their children into one sequence, stamping each with the source's
organization label", read with "implementers should not assume a hard
depth limit" — every job of the department and of all its descendants,
at any depth. -/
def deptAllJobs (company : String) : Department → List Job
  | .node _ js cs => js.map (stampJob company) ++ deptsAllJobs company cs

/-- `deptAllJobs` over a list of departments. -/
def deptsAllJobs (company : String) : List Department → List Job
  | [] => []
  | d :: ds => deptAllJobs company d ++ deptsAllJobs company ds
end

mutual
/-- Height of a department tree (a leaf department has depth 1). -/
def deptDepth : Department → Nat
  | .node _ _ cs => 1 + deptsDepth cs

/-- Greatest height among a list of departments (0 when empty). -/
def deptsDepth : List Department → Nat
  | [] => 0
  | d :: ds => max (deptDepth d) (deptsDepth ds)
end

/-!  Concrete fixtures for the closed evaluation theorems. -/

def jobA : Job :=
  { title := "Research Engineer", content := none, locationName := "London"
    updated_at := "2024-01-01", absolute_url := "https://x/1", company := "Org" }

def jobB : Job :=
  { title := "Software Engineer", content := none, locationName := "Dublin"
    updated_at := "2024-01-02", absolute_url := "https://x/2", company := "Org" }

def jobC : Job :=
  { title := "Data Engineer", content := none, locationName := "Remote"
    updated_at := "2024-01-03", absolute_url := "https://x/3", company := "Org" }

/-- A second posting carrying the same absolute URL as `jobA`. -/
def jobDup : Job :=
  { title := "Research Engineer", content := none, locationName := "Berlin"
    updated_at := "2024-01-04", absolute_url := "https://x/1", company := "Other" }

/-- A job whose `content` is made of characters that appear nowhere
else in the digest of `[jobZ]`. -/
def jobZ : Job :=
  { title := "T", content := some "zzqq", locationName := "L"
    updated_at := "D", absolute_url := "U", company := "V" }

def rawA : RawGJob :=
  { title := "Top job", content := none, locationName := "London"
    updated_at := "2024-01-01", absolute_url := "https://g/a" }

def rawB : RawGJob :=
  { title := "Child job", content := none, locationName := "Dublin"
    updated_at := "2024-01-02", absolute_url := "https://g/b" }

def rawC : RawGJob :=
  { title := "Grandchild job", content := none, locationName := "Berlin"
    updated_at := "2024-01-03", absolute_url := "https://g/c" }

/-- A department tree of depth 3: `rawC` sits in a grandchild
department. -/
def deepDepts : List Department :=
  [.node "Top" [rawA] [.node "Mid" [rawB] [.node "Deep" [rawC] []]]]

/-- A department tree of depth 2. -/
def flatDepts : List Department :=
  [.node "Top" [rawA] [.node "Mid" [rawB] []]]

/-- A concrete Ashby posting with no location and no extras. -/
def postingP : JobPosting :=
  { id := "123", title := "Solutions Architect", teamId := some "t1"
    locationName := none, employmentType := none
    secondaryLocations := [], compensationTierSummary := none }

/-!  Lemmas about substring search. -/

theorem occursIn_nil (h : List Char) : occursIn [] h = true := by
  cases h <;> simp [occursIn, isStartOf]

theorem isStartOf_self_append (n b : List Char) : isStartOf n (n ++ b) = true := by
  induction n with
  | nil => simp [isStartOf]
  | cons c cs ih => simp [isStartOf, ih]

theorem isStartOf_extend (n : List Char) : ∀ a b : List Char,
    isStartOf n a = true → isStartOf n (a ++ b) = true := by
  induction n with
  | nil => intro a b _; simp [isStartOf]
  | cons c cs ih =>
      intro a b h
      cases a with
      | nil => simp [isStartOf] at h
      | cons x xs =>
          simp [isStartOf] at h ⊢
          exact ⟨h.1, ih xs b h.2⟩

theorem occursIn_here (n b : List Char) : occursIn n (n ++ b) = true := by
  cases n with
  | nil => exact occursIn_nil b
  | cons c cs =>
      simp only [List.cons_append, occursIn]
      have h := isStartOf_self_append (c :: cs) b
      simp only [List.cons_append] at h
      simp [h]

theorem occursIn_append_left (n a b : List Char) (h : occursIn n b = true) :
    occursIn n (a ++ b) = true := by
  induction a with
  | nil => simpa using h
  | cons x xs ih =>
      simp only [List.cons_append, occursIn]
      simp [ih]

theorem occursIn_append_right (n : List Char) : ∀ a b : List Char,
    occursIn n a = true → occursIn n (a ++ b) = true := by
  intro a
  induction a with
  | nil =>
      intro b h
      simp [occursIn, List.isEmpty_iff] at h
      subst h
      exact occursIn_nil b
  | cons x xs ih =>
      intro b h
      simp only [occursIn, Bool.or_eq_true] at h
      cases h with
      | inl h =>
          have h2 := isStartOf_extend n (x :: xs) b h
          simp only [List.cons_append] at h2 ⊢
          simp [occursIn, h2]
      | inr h =>
          simp only [List.cons_append, occursIn, Bool.or_eq_true]
          exact Or.inr (ih b h)

theorem occursIn_refl (n : List Char) : occursIn n n = true := by
  have h := occursIn_here n []
  simpa using h

/-!  Lemmas about the seen-set operations. -/

theorem sismember_iff (s : List String) (v : String) :
    sismember s v = true ↔ v ∈ s := by
  simp [sismember, List.contains]

theorem sismember_sadd_self (s : List String) (u : String) :
    sismember (sadd s u) u = true := by
  rw [sismember_iff, sadd]
  split
  · rw [← sismember_iff]; assumption
  · simp

theorem sismember_sadd_mono (s : List String) (u v : String)
    (h : sismember s v = true) : sismember (sadd s u) v = true := by
  rw [sismember_iff] at h ⊢
  rw [sadd]
  split
  · exact h
  · simp [h]

theorem sismember_sadd_of_ne (s : List String) (u v : String) (hne : v ≠ u) :
    sismember (sadd s u) v = sismember s v := by
  rw [sadd]
  split
  · rfl
  · simp [sismember, List.contains, hne]

theorem sismember_foldl_sadd_mono (l : List String) : ∀ s : List String, ∀ w : String,
    sismember s w = true → sismember (l.foldl sadd s) w = true := by
  induction l with
  | nil => intro s w h; simpa using h
  | cons x xs ih =>
      intro s w h
      simpa using ih (sadd s x) w (sismember_sadd_mono s x w h)

theorem sismember_foldl_sadd_of_not_mem (l : List String) : ∀ s : List String,
    ∀ w : String, w ∉ l → sismember (l.foldl sadd s) w = sismember s w := by
  induction l with
  | nil => intro s w _; rfl
  | cons x xs ih =>
      intro s w hw
      have hx : w ≠ x := fun h => hw (by simp [h])
      have hxs : w ∉ xs := fun h => hw (by simp [h])
      calc sismember ((x :: xs).foldl sadd s) w
          = sismember (xs.foldl sadd (sadd s x)) w := rfl
        _ = sismember (sadd s x) w := ih (sadd s x) w hxs
        _ = sismember s w := sismember_sadd_of_ne s x w hx

theorem sismember_commitSeen_mono (batch : List Job) : ∀ seen : List String,
    ∀ u : String, sismember seen u = true →
    sismember (commitSeen seen batch) u = true := by
  induction batch with
  | nil => intro seen u h; simpa [commitSeen] using h
  | cons j rest ih =>
      intro seen u h
      have h2 := sismember_sadd_mono seen j.absolute_url u h
      simpa [commitSeen] using ih (sadd seen j.absolute_url) u h2

theorem sismember_commitSeen_of_mem (batch : List Job) : ∀ seen : List String,
    ∀ j : Job, j ∈ batch →
    sismember (commitSeen seen batch) j.absolute_url = true := by
  induction batch with
  | nil => intro seen j h; cases h
  | cons b rest ih =>
      intro seen j hmem
      cases List.mem_cons.mp hmem with
      | inl h =>
          subst h
          have h2 := sismember_sadd_self seen j.absolute_url
          simpa [commitSeen] using
            sismember_commitSeen_mono rest (sadd seen j.absolute_url) j.absolute_url h2
      | inr h =>
          simpa [commitSeen] using ih (sadd seen b.absolute_url) j h

/-!  Lemmas about the cycle. -/

theorem newJobs_mem (keywords seen : List String) (jobs : List Job) (j : Job)
    (h : j ∈ newJobs keywords seen jobs) :
    j ∈ jobs ∧ check_title_keywords keywords j.title = true ∧
      sismember seen j.absolute_url = false := by
  have h2 := List.mem_filter.mp h
  refine ⟨h2.1, ?_, ?_⟩
  · exact (Bool.and_eq_true _ _ |>.mp h2.2).1
  · have h3 := (Bool.and_eq_true _ _ |>.mp h2.2).2
    simpa using h3

theorem check_jobs_of_failure (send_emails smtp_ok : Bool) (keywords : List String)
    (jobs : List Job) (seen : List String)
    (h : (send_email_alert send_emails smtp_ok (newJobs keywords seen jobs)).2 = false) :
    check_jobs send_emails smtp_ok keywords jobs seen = seen := by
  rw [check_jobs]
  split
  · rfl
  · rw [h]
    simp

theorem check_jobs_of_success (send_emails smtp_ok : Bool) (keywords : List String)
    (jobs : List Job) (seen : List String)
    (hne : newJobs keywords seen jobs ≠ [])
    (h : (send_email_alert send_emails smtp_ok (newJobs keywords seen jobs)).2 = true) :
    check_jobs send_emails smtp_ok keywords jobs seen =
      commitSeen seen (newJobs keywords seen jobs) := by
  rw [check_jobs]
  split
  · rename_i hemp
    exact absurd (List.isEmpty_iff.mp hemp) hne
  · simp [h]

theorem check_jobs_seen_mono (send_emails smtp_ok : Bool) (keywords : List String)
    (jobs : List Job) (seen : List String) (u : String)
    (h : sismember seen u = true) :
    sismember (check_jobs send_emails smtp_ok keywords jobs seen) u = true := by
  rw [check_jobs]
  split
  · exact h
  · split
    · exact sismember_commitSeen_mono _ seen u h
    · exact h

theorem iterateCycles_seen_mono (send_emails smtp_ok : Bool) (keywords : List String)
    (jobs : List Job) (u : String) : ∀ n : Nat, ∀ seen : List String,
    sismember seen u = true →
    sismember (iterateCycles send_emails smtp_ok keywords jobs seen n) u = true := by
  intro n
  induction n with
  | zero => intro seen h; exact h
  | succ m ih =>
      intro seen h
      exact ih _ (check_jobs_seen_mono send_emails smtp_ok keywords jobs seen u h)

/-!  Lemmas about the rendered digest. -/

theorem occursIn_foldl_acc (l : List Job) : ∀ acc : String, ∀ n : List Char,
    occursIn n acc.data = true →
    occursIn n (l.foldl (fun a job => a ++ renderJob job) acc).data = true := by
  induction l with
  | nil => intro acc n h; exact h
  | cons j rest ih =>
      intro acc n h
      have h2 : occursIn n (acc ++ renderJob j).data = true := by
        rw [String.data_append]
        exact occursIn_append_right n acc.data (renderJob j).data h
      simpa using ih (acc ++ renderJob j) n h2

theorem occursIn_emailBody_of_mem (l : List Job) : ∀ acc : String, ∀ j : Job,
    ∀ n : List Char, j ∈ l → occursIn n (renderJob j).data = true →
    occursIn n (l.foldl (fun a job => a ++ renderJob job) acc).data = true := by
  induction l with
  | nil => intro _ _ _ h; cases h
  | cons x rest ih =>
      intro acc j n hmem h
      cases List.mem_cons.mp hmem with
      | inl he =>
          subst he
          have h2 : occursIn n (acc ++ renderJob j).data = true := by
            rw [String.data_append]
            exact occursIn_append_left n acc.data (renderJob j).data h
          simpa using occursIn_foldl_acc rest (acc ++ renderJob j) n h2
      | inr hmem2 =>
          simpa using ih (acc ++ renderJob x) j n hmem2 h

theorem renderJob_contains_fields (j : Job) :
    occursIn j.title.data (renderJob j).data = true ∧
    occursIn j.company.data (renderJob j).data = true ∧
    occursIn j.locationName.data (renderJob j).data = true ∧
    occursIn j.absolute_url.data (renderJob j).data = true := by
  refine ⟨?_, ?_, ?_, ?_⟩ <;>
    · simp only [renderJob, String.data_append, List.append_assoc]
      repeat
        first
        | exact occursIn_here _ _
        | apply occursIn_append_left

theorem occursIn_emailBody (jobs : List Job) (j : Job) (n : List Char)
    (hmem : j ∈ jobs) (h : occursIn n (renderJob j).data = true) :
    occursIn n (emailBody jobs).data = true :=
  occursIn_emailBody_of_mem jobs _ j n hmem h

theorem emailBody_content_irrelevant (jobs : List Job) :
    emailBody (jobs.map (fun x => { x with content := none })) = emailBody jobs := by
  rw [emailBody, emailBody, List.foldl_map]
  rfl

/-!  Lemmas tying the store-instrumented cycle to the pure one. -/

theorem selectNewE_ok (keywords seen : List String) : ∀ jobs : List Job,
    selectNewE false keywords seen jobs = .ok (newJobs keywords seen jobs) := by
  intro jobs
  induction jobs with
  | nil => rfl
  | cons j rest ih =>
      rw [selectNewE, newJobs, List.filter_cons]
      by_cases hk : check_title_keywords keywords j.title = true
      · rw [if_pos hk]
        rw [is_job_seenE]
        simp only [if_neg Bool.false_ne_true]
        cases hs : sismember seen j.absolute_url with
        | true => simp [hk, hs, ih, newJobs]
        | false => simp [hk, hs, ih, newJobs]
      · have hk2 : check_title_keywords keywords j.title = false :=
          Bool.eq_false_iff.mpr hk
        simp [hk2, ih, newJobs]

theorem commitSeenE_ok : ∀ batch : List Job, ∀ seen : List String,
    commitSeenE false seen batch = .ok (commitSeen seen batch) := by
  intro batch
  induction batch with
  | nil => intro seen; rfl
  | cons j rest ih =>
      intro seen
      rw [commitSeenE, mark_job_seenE]
      simp only [if_neg Bool.false_ne_true]
      simpa [commitSeen] using ih (sadd seen j.absolute_url)

theorem check_jobs_try_ok (send_emails smtp_ok : Bool) (keywords : List String)
    (jobs : List Job) (seen : List String) :
    check_jobs_try false send_emails smtp_ok keywords jobs seen =
      .ok (check_jobs send_emails smtp_ok keywords jobs seen) := by
  simp only [check_jobs_try, selectNewE_ok, check_jobs]
  by_cases h1 : (newJobs keywords seen jobs).isEmpty = true
  · simp [h1]
  · by_cases h2 : (send_email_alert send_emails smtp_ok (newJobs keywords seen jobs)).2 = true
    · simp [h1, h2, commitSeenE_ok]
    · simp [h1, h2]

/-!  Lemmas about department depth. -/

theorem deptDepth_pos (d : Department) : 1 ≤ deptDepth d := by
  cases d with
  | node name js cs => rw [deptDepth]; omega

theorem deptsDepth_eq_zero (l : List Department) (h : deptsDepth l = 0) :
    l = [] := by
  cases l with
  | nil => rfl
  | cons d ds =>
      rw [deptsDepth] at h
      have h1 := deptDepth_pos d
      omega

theorem child_flatten_of_depth_le_one (company : String) : ∀ cs : List Department,
    deptsDepth cs ≤ 1 →
    flatMapL (fun child => child.jobs.map (stampJob company)) cs =
      deptsAllJobs company cs := by
  intro cs
  induction cs with
  | nil => intro _; rfl
  | cons c rest ih =>
      intro h
      rw [deptsDepth] at h
      have hc : deptDepth c ≤ 1 := le_trans (le_max_left _ _) h
      have hrest : deptsDepth rest ≤ 1 := le_trans (le_max_right _ _) h
      cases c with
      | node name js ccs =>
          rw [deptDepth] at hc
          have hccs : ccs = [] := deptsDepth_eq_zero ccs (by omega)
          subst hccs
          rw [flatMapL, deptsAllJobs, deptAllJobs, deptsAllJobs]
          rw [ih hrest]
          simp [Department.jobs]

/-!  Claim theorems. -/

/-- C1: in a cycle whose new-jobs batch is non-empty, the seen-set is
mutated only when `send_email_alert` signals success.  On failure the
seen-set is exactly unchanged and none of the batch URLs are members
afterward; on success every job of the batch has its absolute URL
inserted. -/
theorem claim1_commit_atomicity (send_emails smtp_ok : Bool)
    (keywords : List String) (jobs : List Job) (seen : List String)
    (hne : newJobs keywords seen jobs ≠ []) :
    ((send_email_alert send_emails smtp_ok (newJobs keywords seen jobs)).2 = false →
      check_jobs send_emails smtp_ok keywords jobs seen = seen ∧
      ∀ j ∈ newJobs keywords seen jobs,
        sismember (check_jobs send_emails smtp_ok keywords jobs seen)
          j.absolute_url = false) ∧
    ((send_email_alert send_emails smtp_ok (newJobs keywords seen jobs)).2 = true →
      ∀ j ∈ newJobs keywords seen jobs,
        sismember (check_jobs send_emails smtp_ok keywords jobs seen)
          j.absolute_url = true) := by
  constructor
  · intro hfail
    have heq := check_jobs_of_failure send_emails smtp_ok keywords jobs seen hfail
    refine ⟨heq, ?_⟩
    intro j hj
    rw [heq]
    exact (newJobs_mem keywords seen jobs j hj).2.2
  · intro hsucc j hj
    rw [check_jobs_of_success send_emails smtp_ok keywords jobs seen hne hsucc]
    exact sismember_commitSeen_of_mem (newJobs keywords seen jobs) seen j hj

theorem claim1_commit_atomicity_witness :
    newJobs [] [] [jobA, jobB, jobC] ≠ [] ∧
    check_jobs true false [] [jobA, jobB, jobC] [] = [] ∧
    sismember (check_jobs true false [] [jobA, jobB, jobC] [])
      jobA.absolute_url = false ∧
    sismember (check_jobs false true [] [jobA, jobB, jobC] [])
      jobA.absolute_url = true :=
  ⟨by decide,
    ((claim1_commit_atomicity true false [] [jobA, jobB, jobC] [] (by decide)).1
      (by decide)).1,
    ((claim1_commit_atomicity true false [] [jobA, jobB, jobC] [] (by decide)).1
      (by decide)).2 jobA (by decide),
    (claim1_commit_atomicity false true [] [jobA, jobB, jobC] [] (by decide)).2
      (by decide) jobA (by decide)⟩

/-- C2: once a cycle successfully commits a batch URL, no later cycle
over the same combined job sequence has that URL in its new-jobs batch
(whatever the later cycles' notifier outcomes); and with a notifier
that always fails, every cycle leaves the seen-set unchanged and
re-identifies the same new-jobs batch. -/
theorem claim2_at_most_once (send_emails smtp_ok se2 so2 : Bool)
    (keywords : List String) (jobs : List Job) (seen : List String) (u : String)
    (hsucc : (send_email_alert send_emails smtp_ok (newJobs keywords seen jobs)).2 = true)
    (hu : u ∈ (newJobs keywords seen jobs).map (fun j => j.absolute_url)) :
    (∀ n : Nat,
      u ∉ (newJobs keywords
          (iterateCycles se2 so2 keywords jobs
            (check_jobs send_emails smtp_ok keywords jobs seen) n) jobs).map
          (fun j => j.absolute_url)) ∧
    (∀ n : Nat, iterateCycles true false keywords jobs seen n = seen ∧
      newJobs keywords (iterateCycles true false keywords jobs seen n) jobs =
        newJobs keywords seen jobs) := by
  constructor
  · intro n hn
    have hne : newJobs keywords seen jobs ≠ [] := by
      intro h0
      rw [h0] at hu
      simp at hu
    obtain ⟨j0, hj0, hj0u⟩ := List.mem_map.mp hu
    have h1 : sismember (check_jobs send_emails smtp_ok keywords jobs seen) u = true := by
      rw [check_jobs_of_success send_emails smtp_ok keywords jobs seen hne hsucc, ← hj0u]
      exact sismember_commitSeen_of_mem (newJobs keywords seen jobs) seen j0 hj0
    have h2 := iterateCycles_seen_mono se2 so2 keywords jobs u n
      (check_jobs send_emails smtp_ok keywords jobs seen) h1
    obtain ⟨j, hj, hju⟩ := List.mem_map.mp hn
    have h3 := (newJobs_mem keywords
      (iterateCycles se2 so2 keywords jobs
        (check_jobs send_emails smtp_ok keywords jobs seen) n) jobs j hj).2.2
    rw [hju] at h3
    simp [h3] at h2
  · have hstep : ∀ s : List String, check_jobs true false keywords jobs s = s := by
      intro s
      exact check_jobs_of_failure true false keywords jobs s rfl
    have hiter : ∀ n : Nat, iterateCycles true false keywords jobs seen n = seen := by
      intro n
      induction n with
      | zero => rfl
      | succ m ih =>
          rw [iterateCycles, hstep]
          exact ih
    intro n
    exact ⟨hiter n, by rw [hiter n]⟩

theorem claim2_at_most_once_witness :
    (send_email_alert false true (newJobs [] [] [jobA, jobB])).2 = true ∧
    "https://x/1" ∈ (newJobs [] [] [jobA, jobB]).map (fun j => j.absolute_url) ∧
    "https://x/1" ∉ (newJobs []
        (iterateCycles true false [] [jobA, jobB]
          (check_jobs false true [] [jobA, jobB] []) 1) [jobA, jobB]).map
        (fun j => j.absolute_url) ∧
    iterateCycles true false [] [jobA, jobB] [] 2 = [] :=
  ⟨by decide, by decide,
    (claim2_at_most_once false true true false [] [jobA, jobB] [] "https://x/1"
      (by decide) (by decide)).1 1,
    ((claim2_at_most_once false true true false [] [jobA, jobB] [] "https://x/1"
      (by decide) (by decide)).2 2).1⟩

/-- C3: an adapter whose fetch/decode raises catches the error and
contributes the empty sequence, and `fetch_jobs` over two sources — one
failing, one succeeding — returns exactly the succeeding source's jobs,
in either registry order. -/
theorem claim3_adapter_isolation (company nowIso e : String) (s2 : Source) :
    fetch_greenhouse_jobs company (.error e) = [] ∧
    fetch_openai_jobs company nowIso (.error e) = [] ∧
    fetch_jobs nowIso [⟨company, .greenhouse (.error e)⟩, s2] =
      fetch_jobs nowIso [s2] ∧
    fetch_jobs nowIso [s2, ⟨company, .greenhouse (.error e)⟩] =
      fetch_jobs nowIso [s2] ∧
    fetch_jobs nowIso [⟨company, .openai (.error e)⟩, s2] =
      fetch_jobs nowIso [s2] ∧
    fetch_jobs nowIso [s2, ⟨company, .openai (.error e)⟩] =
      fetch_jobs nowIso [s2] := by
  refine ⟨rfl, rfl, ?_, ?_, ?_, ?_⟩ <;>
    simp [fetch_jobs, flatMapL, fetch_greenhouse_jobs, fetch_openai_jobs]

/-- C4: with an empty keyword list every title passes the filter;
otherwise a title passes exactly when some keyword of the list occurs
case-insensitively as a substring of it, as on the spec's examples. -/
theorem claim4_keyword_filter (keywords : List String) (title : String) :
    (keywords = [] → check_title_keywords keywords title = true) ∧
    (keywords ≠ [] →
      (check_title_keywords keywords title = true ↔
        ∃ kw ∈ keywords, occursIn (lowerData kw) (lowerData title) = true)) ∧
    check_title_keywords ["engineer"] "Senior Software Engineer" = true ∧
    check_title_keywords ["engineer"] "ENGINEER II" = true ∧
    check_title_keywords ["engineer"] "Product Manager" = false := by
  refine ⟨?_, ?_, by decide, by decide, by decide⟩
  · intro h
    subst h
    rfl
  · intro h
    rw [check_title_keywords, if_neg (by simpa [List.isEmpty_iff] using h)]
    exact List.any_eq_true

theorem claim4_keyword_filter_witness :
    (([] : List String) = [] → check_title_keywords [] "" = true) ∧
    (check_title_keywords ["engineer"] "ENGINEER II" = true ↔
      ∃ kw ∈ (["engineer"] : List String),
        occursIn (lowerData kw) (lowerData "ENGINEER II") = true) :=
  ⟨(claim4_keyword_filter [] "").1 |> fun h => fun _ => h rfl,
    (claim4_keyword_filter ["engineer"] "ENGINEER II").2.1 (by decide)⟩

/-- C5 as stated fails on the code: the adapter's loop visits only the
top-level departments and their immediate children, so a job sitting in
a grandchild department (depth 3) is dropped, while the claimed
flattening of "all departments and all their descendants"
(`deptsAllJobs`) keeps it. -/
theorem claim5_counterexample :
    stampJob "Org" rawC ∈ deptsAllJobs "Org" deepDepts ∧
    stampJob "Org" rawC ∉ fetch_greenhouse_jobs "Org" (.ok deepDepts) ∧
    fetch_greenhouse_jobs "Org" (.ok deepDepts) ≠ deptsAllJobs "Org" deepDepts := by
  refine ⟨by decide, by decide, by decide⟩

/-- C5 amended: the tree-listing adapter flattens the jobs of the
top-level departments and of their immediate children, stamping each
with the organization label; whenever no department tree nests deeper
than two levels this equals the flattening of all departments and all
their descendants. -/
theorem claim5_tree_flatten (company : String) (depts : List Department)
    (h : deptsDepth depts ≤ 2) :
    fetch_greenhouse_jobs company (.ok depts) = deptsAllJobs company depts := by
  induction depts with
  | nil => rfl
  | cons d rest ih =>
      rw [deptsDepth] at h
      have hd : deptDepth d ≤ 2 := le_trans (le_max_left _ _) h
      have hrest : deptsDepth rest ≤ 2 := le_trans (le_max_right _ _) h
      have ih2 := ih hrest
      rw [fetch_greenhouse_jobs] at ih2 ⊢
      cases d with
      | node name js cs =>
          rw [deptDepth] at hd
          rw [flatMapL, deptsAllJobs, deptAllJobs, ih2]
          rw [show (Department.node name js cs).jobs = js from rfl]
          rw [show (Department.node name js cs).children = cs from rfl]
          rw [child_flatten_of_depth_le_one company cs (by omega)]

theorem claim5_tree_flatten_witness :
    deptsDepth flatDepts ≤ 2 ∧
    fetch_greenhouse_jobs "Org" (.ok flatDepts) = deptsAllJobs "Org" flatDepts :=
  ⟨by decide, claim5_tree_flatten "Org" flatDepts (by decide)⟩

/-- C6: the query-based adapter normalizes a posting so that a missing
location name becomes "Remote", a location "NYC" with two secondary
locations becomes "NYC + 2 other locations", the content is synthesized
from the side-table team name and the compensation and employment-type
fields (each defaulting to "Not specified" when absent), and the
absolute URL templates the posting id into the Ashby job-posting URL
pattern. -/
theorem claim6_query_normalization (company nowIso : String) (teams : List Team)
    (p : JobPosting) :
    (p.locationName = none → p.secondaryLocations = [] →
      (normalizePosting company nowIso teams p).locationName = "Remote") ∧
    (p.locationName = some "NYC" → p.secondaryLocations.length = 2 →
      (normalizePosting company nowIso teams p).locationName =
        "NYC + 2 other locations") ∧
    (normalizePosting company nowIso teams p).content =
      some ("Team: " ++ lookupTeam teams p.teamId ++ "\nCompensation: " ++
        p.compensationTierSummary.getD "Not specified" ++ "\nEmployment Type: " ++
        p.employmentType.getD "Not specified") ∧
    (normalizePosting company nowIso teams p).absolute_url =
      "https://jobs.ashbyhq.com/openai/" ++ p.id := by
  refine ⟨?_, ?_, rfl, rfl⟩
  · intro h1 h2
    simp [normalizePosting, h1, h2]
  · intro h1 h2
    have hne : p.secondaryLocations.isEmpty = false := by
      cases hsl : p.secondaryLocations with
      | nil => rw [hsl] at h2; simp at h2
      | cons a b => rfl
    simp [normalizePosting, h1, hne, h2]
    decide

theorem claim6_query_normalization_witness :
    postingP.locationName = none ∧ postingP.secondaryLocations = [] ∧
    (normalizePosting "OpenAI" "2024-01-01" [⟨"t1", "Applied"⟩] postingP).locationName =
      "Remote" :=
  ⟨rfl, rfl,
    (claim6_query_normalization "OpenAI" "2024-01-01" [⟨"t1", "Applied"⟩] postingP).1
      rfl rfl⟩

/-- C7 as stated fails on the code: `send_email_alert` renders title,
company, location and URL but never the job's `content`, so a job whose
content is made of characters foreign to the rest of the digest yields
a digest with no excerpt of that content at all. -/
theorem claim7_counterexample :
    jobZ.content = some "zzqq" ∧
    occursIn ("zzqq".data) ((emailBody [jobZ]).data) = false ∧
    ('z' ∉ (emailBody [jobZ]).data) ∧ ('q' ∉ (emailBody [jobZ]).data) ∧
    (send_email_alert false true [jobZ]).2 = true := by
  refine ⟨rfl, by decide, by decide, by decide, rfl⟩

/-- C7 amended: the digest contains, for every job of the batch, its
title, organization label, location name and apply URL; the job's
descriptive content is never rendered (the digest is unchanged when
every content field is erased); and in dry-run mode the digest is still
produced while the success signal is `true`. -/
theorem claim7_digest (batch : List Job) (j : Job) (smtp_ok : Bool)
    (hmem : j ∈ batch) :
    occursIn j.title.data (emailBody batch).data = true ∧
    occursIn j.company.data (emailBody batch).data = true ∧
    occursIn j.locationName.data (emailBody batch).data = true ∧
    occursIn j.absolute_url.data (emailBody batch).data = true ∧
    emailBody (batch.map (fun x => { x with content := none })) = emailBody batch ∧
    send_email_alert false smtp_ok batch = (emailBody batch, true) := by
  obtain ⟨h1, h2, h3, h4⟩ := renderJob_contains_fields j
  exact ⟨occursIn_emailBody batch j j.title.data hmem h1,
    occursIn_emailBody batch j j.company.data hmem h2,
    occursIn_emailBody batch j j.locationName.data hmem h3,
    occursIn_emailBody batch j j.absolute_url.data hmem h4,
    emailBody_content_irrelevant batch, rfl⟩

theorem claim7_digest_witness :
    jobA ∈ [jobA, jobB] ∧
    occursIn (jobA.title.data) ((emailBody [jobA, jobB]).data) = true ∧
    send_email_alert false false [jobA, jobB] = (emailBody [jobA, jobB], true) :=
  ⟨by decide,
    (claim7_digest [jobA, jobB] jobA false (by decide)).1,
    (claim7_digest [jobA, jobB] jobA false (by decide)).2.2.2.2.2⟩

/-- C8 as stated fails on the code: `check_jobs` wraps its whole body
in a blanket exception handler, so a store error raised by the
membership check is caught and the run-one-cycle operation still
returns normally — the error does not propagate out. -/
theorem claim8_counterexample :
    check_jobs_try true false false [] [jobA] [] = .error ("store unavailable") ∧
    check_jobs_run true false false [] [jobA] [] = .ok [] :=
  ⟨rfl, rfl⟩

/-- C8 amended: every error raised inside the cycle body — a store
error included — is caught by the cycle's handler and the run-one-cycle
operation returns normally; when the store is available the cycle
computes exactly the pure `check_jobs` transition. -/
theorem claim8_cycle_errors (store_fails send_emails smtp_ok : Bool)
    (keywords : List String) (jobs : List Job) (seen : List String) :
    (∃ s : List String,
      check_jobs_run store_fails send_emails smtp_ok keywords jobs seen = .ok s) ∧
    check_jobs_run false send_emails smtp_ok keywords jobs seen =
      .ok (check_jobs send_emails smtp_ok keywords jobs seen) := by
  constructor
  · rw [check_jobs_run]
    cases check_jobs_try store_fails send_emails smtp_ok keywords jobs seen with
    | ok s => exact ⟨s, rfl⟩
    | error e => exact ⟨seen, rfl⟩
  · rw [check_jobs_run, check_jobs_try_ok]

/-- C9: deduplication is only against the persistent seen-set, never
within the cycle's own combined sequence — two combined-sequence
entries sharing an unseen absolute URL both survive into the new-jobs
batch (so the batch holds that URL at least twice) and both are
rendered in the one digest. -/
theorem claim9_no_intra_cycle_dedup (keywords seen : List String)
    (jobs : List Job) (j1 j2 : Job)
    (hsub : [j1, j2].Sublist jobs)
    (h1 : check_title_keywords keywords j1.title = true)
    (h2 : check_title_keywords keywords j2.title = true)
    (hurl : j2.absolute_url = j1.absolute_url)
    (hseen : sismember seen j1.absolute_url = false) :
    [j1, j2].Sublist (newJobs keywords seen jobs) ∧
    2 ≤ (newJobs keywords seen jobs).countP
        (fun j => j.absolute_url == j1.absolute_url) ∧
    occursIn (renderJob j1).data (emailBody (newJobs keywords seen jobs)).data = true ∧
    occursIn (renderJob j2).data (emailBody (newJobs keywords seen jobs)).data = true := by
  have hp1 : (check_title_keywords keywords j1.title &&
      !(sismember seen j1.absolute_url)) = true := by
    rw [h1, hseen]
    rfl
  have hp2 : (check_title_keywords keywords j2.title &&
      !(sismember seen j2.absolute_url)) = true := by
    rw [h2, hurl, hseen]
    rfl
  have hfil : [j1, j2].filter (fun job => check_title_keywords keywords job.title &&
      !(sismember seen job.absolute_url)) = [j1, j2] := by
    simp [List.filter_cons, hp1, hp2]
  have hsub2 := hsub.filter (fun job => check_title_keywords keywords job.title &&
    !(sismember seen job.absolute_url))
  rw [hfil] at hsub2
  have hsubNew : [j1, j2].Sublist (newJobs keywords seen jobs) := hsub2
  have hcount : 2 ≤ (newJobs keywords seen jobs).countP
      (fun j => j.absolute_url == j1.absolute_url) := by
    have hle := hsubNew.countP_le (fun j => j.absolute_url == j1.absolute_url)
    have h22 : ([j1, j2].countP fun j => j.absolute_url == j1.absolute_url) = 2 := by
      simp [List.countP_cons, hurl]
    omega
  have hm1 : j1 ∈ newJobs keywords seen jobs := hsubNew.subset (by simp)
  have hm2 : j2 ∈ newJobs keywords seen jobs := hsubNew.subset (by simp)
  exact ⟨hsubNew, hcount,
    occursIn_emailBody _ j1 (renderJob j1).data hm1 (occursIn_refl _),
    occursIn_emailBody _ j2 (renderJob j2).data hm2 (occursIn_refl _)⟩

theorem claim9_no_intra_cycle_dedup_witness :
    [jobA, jobDup].Sublist [jobA, jobDup] ∧
    check_title_keywords ["engineer"] jobA.title = true ∧
    check_title_keywords ["engineer"] jobDup.title = true ∧
    jobDup.absolute_url = jobA.absolute_url ∧
    sismember [] jobA.absolute_url = false ∧
    2 ≤ (newJobs ["engineer"] [] [jobA, jobDup]).countP
        (fun j => j.absolute_url == jobA.absolute_url) :=
  ⟨List.Sublist.refl _, by decide, by decide, rfl, rfl,
    (claim9_no_intra_cycle_dedup ["engineer"] [] [jobA, jobDup] jobA jobDup
      (List.Sublist.refl _) (by decide) (by decide) rfl rfl).2.1⟩

/-- C10: the seen-set stand-in is coherent: a URL just inserted is a
member, stays a member under any further inserts, and a URL never
inserted since the store's creation is not a member. -/
theorem claim10_mock_redis_roundtrip (s : List String) (u v : String)
    (ops : List String) (hv : v ∉ ops) :
    sismember (sadd s u) u = true ∧
    (∀ more : List String, sismember (more.foldl sadd (sadd s u)) u = true) ∧
    sismember (ops.foldl sadd []) v = false := by
  refine ⟨sismember_sadd_self s u, ?_, ?_⟩
  · intro more
    exact sismember_foldl_sadd_mono more (sadd s u) u (sismember_sadd_self s u)
  · rw [sismember_foldl_sadd_of_not_mem ops [] v hv]
    rfl

theorem claim10_mock_redis_roundtrip_witness :
    ("https://x/9" ∉ (["https://x/1", "https://x/2"] : List String)) ∧
    sismember (sadd [] "https://x/1") "https://x/1" = true ∧
    sismember ((["https://x/2", "https://x/3"] : List String).foldl sadd
      (sadd [] "https://x/1")) "https://x/1" = true ∧
    sismember ((["https://x/1", "https://x/2"] : List String).foldl sadd [])
      "https://x/9" = false :=
  ⟨by decide,
    (claim10_mock_redis_roundtrip [] "https://x/1" "https://x/9"
      ["https://x/1", "https://x/2"] (by decide)).1,
    (claim10_mock_redis_roundtrip [] "https://x/1" "https://x/9"
      ["https://x/1", "https://x/2"] (by decide)).2.1 ["https://x/2", "https://x/3"],
    (claim10_mock_redis_roundtrip [] "https://x/1" "https://x/9"
      ["https://x/1", "https://x/2"] (by decide)).2.2⟩

end JobAlert
